import Mathlib

/-!
# Verification of `child_by_source` (crates/ra_hir_def/src/child_by_source.rs)

This development embeds the reverse source-mapping dispatcher of
`child_by_source.rs` in Lean and proves the spec's testable properties
about it.

The dispatcher code (the `ChildBySource` impls and `add_module_def`) is
translated from the source file.  Its collaborators are not part of the
source under verification and are modelled from the spec:

* `DynMap` (the heterogeneous map, `dyn_map.rs` + `keys.rs`) — modelled
  per spec §3/§4.1: a closed set of slots, inner maps from
  `SourceLocation` to the slot's semantic-id type, insert overwrites on
  a duplicate key, lookup is read-only.
* the semantic database (`DefDatabase`, `Lookup::lookup`,
  `HasSource::source`, `HasChildSource::child_source`) — modelled per
  spec §6 as a record of functions; `source_of` may be partial (synthetic
  ids have no source, §4.2/§6), and a child whose source does not resolve
  is skipped.
-/

/-- An opaque handle for a position in a source file (spec §3):
file identity plus an in-file locator. -/

structure SourceLocation where
  file : Nat
  anchor : Nat
deriving DecidableEq

/-- Semantic id of a function. -/

structure FunctionId where
  id : Nat
deriving DecidableEq

/-- Semantic id of a const. -/

structure ConstId where
  id : Nat
deriving DecidableEq

/-- Semantic id of a static. -/

structure StaticId where
  id : Nat
deriving DecidableEq

/-- Semantic id of a type alias. -/

structure TypeAliasId where
  id : Nat
deriving DecidableEq

/-- Semantic id of a trait. -/

structure TraitId where
  id : Nat
deriving DecidableEq

/-- Semantic id of a struct. -/

structure StructId where
  id : Nat
deriving DecidableEq

/-- Semantic id of a union. -/

structure UnionId where
  id : Nat
deriving DecidableEq

/-- Semantic id of an enum. -/

structure EnumId where
  id : Nat
deriving DecidableEq

/-- Semantic id of an impl block. -/

structure ImplId where
  id : Nat
deriving DecidableEq

/-- Semantic id of a module: crate plus crate-local module index. -/

structure ModuleId where
  krate : Nat
  local_id : Nat
deriving DecidableEq

/-- A builtin type (one of the `ModuleDefId` kinds the dispatcher ignores). -/

structure BuiltinType where
  id : Nat
deriving DecidableEq

/-- Semantic id of an enum variant: parent enum plus local arena index. -/

structure EnumVariantId where
  parent : EnumId
  local_id : Nat
deriving DecidableEq

/-- `VariantId`: a thing that has struct fields — an enum variant, a struct
or a union. -/

inductive VariantId where
  | enumVariantId (v : EnumVariantId)
  | structId (s : StructId)
  | unionId (u : UnionId)
deriving DecidableEq

/-- Semantic id of a struct field: parent variant plus local arena index. -/

structure StructFieldId where
  parent : VariantId
  local_id : Nat
deriving DecidableEq

/-- `DefWithBodyId`: a definition that owns a body. -/

inductive DefWithBodyId where
  | functionId (f : FunctionId)
  | staticId (s : StaticId)
  | constId (c : ConstId)
deriving DecidableEq

/-- `AssocItemId`: an associated item of a trait or impl. -/

inductive AssocItemId where
  | functionId (f : FunctionId)
  | constId (c : ConstId)
  | typeAliasId (t : TypeAliasId)
deriving DecidableEq

/-- `AdtId`: a struct, union or enum. -/

inductive AdtId where
  | structId (s : StructId)
  | unionId (u : UnionId)
  | enumId (e : EnumId)
deriving DecidableEq

/-- `ModuleDefId`: anything that can live in a module's scope (also the type
of body-local definitions). -/

inductive ModuleDefId where
  | moduleId (m : ModuleId)
  | functionId (f : FunctionId)
  | adtId (a : AdtId)
  | enumVariantId (v : EnumVariantId)
  | constId (c : ConstId)
  | staticId (s : StaticId)
  | traitId (t : TraitId)
  | typeAliasId (t : TypeAliasId)
  | builtinType (b : BuiltinType)
deriving DecidableEq

/-- `either::Either`, used by `HasChildSource` for `VariantId` to tag a
field's source as tuple-style (`Left`) or record-style (`Right`). -/

inductive Either (α : Type) (β : Type) where
  | left (a : α)
  | right (b : β)
deriving DecidableEq

/-- The closed slot registry of `keys.rs` (spec §2.2): one slot per
child-item kind. -/

inductive Slot where
  | FUNCTION
  | CONST
  | STATIC
  | TYPE_ALIAS
  | TRAIT
  | STRUCT
  | UNION
  | ENUM
  | IMPL
  | ENUM_VARIANT
  | TUPLE_FIELD
  | RECORD_FIELD
deriving DecidableEq

/-- The semantic-id value type statically attached to each slot. -/

def Slot.Val : Slot → Type
  | .FUNCTION => FunctionId
  | .CONST => ConstId
  | .STATIC => StaticId
  | .TYPE_ALIAS => TypeAliasId
  | .TRAIT => TraitId
  | .STRUCT => StructId
  | .UNION => UnionId
  | .ENUM => EnumId
  | .IMPL => ImplId
  | .ENUM_VARIANT => EnumVariantId
  | .TUPLE_FIELD => StructFieldId
  | .RECORD_FIELD => StructFieldId

instance instDecEqSlotVal : (s : Slot) → DecidableEq (Slot.Val s)
  | .FUNCTION => inferInstanceAs (DecidableEq FunctionId)
  | .CONST => inferInstanceAs (DecidableEq ConstId)
  | .STATIC => inferInstanceAs (DecidableEq StaticId)
  | .TYPE_ALIAS => inferInstanceAs (DecidableEq TypeAliasId)
  | .TRAIT => inferInstanceAs (DecidableEq TraitId)
  | .STRUCT => inferInstanceAs (DecidableEq StructId)
  | .UNION => inferInstanceAs (DecidableEq UnionId)
  | .ENUM => inferInstanceAs (DecidableEq EnumId)
  | .IMPL => inferInstanceAs (DecidableEq ImplId)
  | .ENUM_VARIANT => inferInstanceAs (DecidableEq EnumVariantId)
  | .TUPLE_FIELD => inferInstanceAs (DecidableEq StructFieldId)
  | .RECORD_FIELD => inferInstanceAs (DecidableEq StructFieldId)

/-- All twelve slots of the registry. -/

def Slot.all : List Slot :=
  [.FUNCTION, .CONST, .STATIC, .TYPE_ALIAS, .TRAIT, .STRUCT, .UNION, .ENUM,
   .IMPL, .ENUM_VARIANT, .TUPLE_FIELD, .RECORD_FIELD]

/-- Lookup in an inner map represented as an association list. -/

def lookupKey {α : Type} (k : SourceLocation) : List (SourceLocation × α) → Option α
  | [] => none
  | (k', v) :: rest => if k' = k then some v else lookupKey k rest

/-- Remove every binding for key `k` (insertion overwrites, spec §3). -/

def removeKey {α : Type} (k : SourceLocation) : List (SourceLocation × α) → List (SourceLocation × α)
  | [] => []
  | (k', v) :: rest => if k' = k then removeKey k rest else (k', v) :: removeKey k rest

/-- Modelled from the spec: the heterogeneous `DynMap` of `dyn_map.rs`
(not part of the source under verification).  Per spec §3/§4.1 it maps
each slot to an inner map from `SourceLocation` to that slot's
semantic-id type; the inner map is represented as an association list
whose keys are kept unique by `insert`. -/

structure DynMap where
  slots : (s : Slot) → List (SourceLocation × Slot.Val s)

/-- `DynMap::default()`: all slots present but empty (spec §4.1 `empty()`). -/

def DynMap.default : DynMap := ⟨fun _ => []⟩

/-- Modelled from the spec: `insert` stores `v` under `k` within slot `s`'s
inner map, overwriting any prior value for the same key (spec §4.1). -/

def DynMap.insert (m : DynMap) (s : Slot) (k : SourceLocation) (v : Slot.Val s) : DynMap :=
  ⟨fun t => if h : s = t then (k, h ▸ v) :: removeKey k (m.slots t) else m.slots t⟩

/-- Modelled from the spec: `get` returns the value stored for `k` in slot
`s`, or `none` (spec §4.1). -/

def DynMap.get (m : DynMap) (s : Slot) (k : SourceLocation) : Option (Slot.Val s) :=
  lookupKey k (m.slots s)

/-- Total number of entries across all slots. -/

def DynMap.totalEntries (m : DynMap) : Nat :=
  (Slot.all.map (fun s => (m.slots s).length)).sum

/-- A semantic id whose originating source the database can be asked for.
Covers every `ModuleDefId`/`AssocItemId` kind so that "the number of
children with resolvable sources" is definable for all reported
children. -/

inductive ItemId where
  | function (f : FunctionId)
  | const (c : ConstId)
  | static (s : StaticId)
  | typeAlias (t : TypeAliasId)
  | trait (t : TraitId)
  | struct (s : StructId)
  | union (u : UnionId)
  | enum (e : EnumId)
  | impl (i : ImplId)
  | module (m : ModuleId)
  | enumVariant (v : EnumVariantId)
  | builtin (b : BuiltinType)
deriving DecidableEq

/-- Modelled from the spec: the external semantic database (`DefDatabase`,
`Lookup::lookup`, `HasSource::source`, `HasChildSource::child_source`,
`Body`), none of which is part of the source under verification.  Per
spec §6 it is a narrow record of functions: child enumeration per parent
kind, per-id source resolution (`source_of`, partial because synthetic
ids lack source), and the local-id arenas with sources for fields and
variants. -/

structure DefDatabase where
  trait_data : TraitId → List AssocItemId
  impl_data : ImplId → List AssocItemId
  module_decls : ModuleId → List ModuleDefId
  module_impls : ModuleId → List ImplId
  body_defs : DefWithBodyId → List ModuleDefId
  source_of : ItemId → Option SourceLocation
  variant_child_source : VariantId → List (Nat × Either SourceLocation SourceLocation)
  enum_child_source : EnumId → List (Nat × SourceLocation)

/-- The loop body of `impl ChildBySource for TraitId`: classify one
associated item and insert it under its own source.  A child whose source
does not resolve is skipped (spec §4.2; `source` itself is external). -/

def trait_assoc_step (db : DefDatabase) (res : DynMap) (item : AssocItemId) : DynMap :=
  match item with
  | AssocItemId.functionId func =>
    match db.source_of (ItemId.function func) with
    | some src => res.insert Slot.FUNCTION src func
    | none => res
  | AssocItemId.constId konst =>
    match db.source_of (ItemId.const konst) with
    | some src => res.insert Slot.CONST src konst
    | none => res
  | AssocItemId.typeAliasId ty =>
    match db.source_of (ItemId.typeAlias ty) with
    | some src => res.insert Slot.TYPE_ALIAS src ty
    | none => res

/-- `impl ChildBySource for TraitId`: iterate `db.trait_data(self).items`,
classify each associated item and insert it keyed by its source. -/

def TraitId.child_by_source (db : DefDatabase) (self : TraitId) : DynMap :=
  (db.trait_data self).foldl (trait_assoc_step db) DynMap.default

/-- The loop body of `impl ChildBySource for ImplId` (the source repeats
the same three-way match as for traits). -/

def impl_assoc_step (db : DefDatabase) (res : DynMap) (item : AssocItemId) : DynMap :=
  match item with
  | AssocItemId.functionId func =>
    match db.source_of (ItemId.function func) with
    | some src => res.insert Slot.FUNCTION src func
    | none => res
  | AssocItemId.constId konst =>
    match db.source_of (ItemId.const konst) with
    | some src => res.insert Slot.CONST src konst
    | none => res
  | AssocItemId.typeAliasId ty =>
    match db.source_of (ItemId.typeAlias ty) with
    | some src => res.insert Slot.TYPE_ALIAS src ty
    | none => res

/-- `impl ChildBySource for ImplId`: iterate `db.impl_data(self).items`. -/

def ImplId.child_by_source (db : DefDatabase) (self : ImplId) : DynMap :=
  (db.impl_data self).foldl (impl_assoc_step db) DynMap.default

/-- `add_module_def`: classify one `ModuleDefId` into its slot; kinds
outside the handled set (`_ => ()`) leave the map unchanged. -/

def add_module_def (db : DefDatabase) (map : DynMap) (item : ModuleDefId) : DynMap :=
  match item with
  | ModuleDefId.functionId func =>
    match db.source_of (ItemId.function func) with
    | some src => map.insert Slot.FUNCTION src func
    | none => map
  | ModuleDefId.constId konst =>
    match db.source_of (ItemId.const konst) with
    | some src => map.insert Slot.CONST src konst
    | none => map
  | ModuleDefId.staticId statik =>
    match db.source_of (ItemId.static statik) with
    | some src => map.insert Slot.STATIC src statik
    | none => map
  | ModuleDefId.typeAliasId ty =>
    match db.source_of (ItemId.typeAlias ty) with
    | some src => map.insert Slot.TYPE_ALIAS src ty
    | none => map
  | ModuleDefId.traitId trait_ =>
    match db.source_of (ItemId.trait trait_) with
    | some src => map.insert Slot.TRAIT src trait_
    | none => map
  | ModuleDefId.adtId adt =>
    match adt with
    | AdtId.structId strukt =>
      match db.source_of (ItemId.struct strukt) with
      | some src => map.insert Slot.STRUCT src strukt
      | none => map
    | AdtId.unionId union_ =>
      match db.source_of (ItemId.union union_) with
      | some src => map.insert Slot.UNION src union_
      | none => map
    | AdtId.enumId enum_ =>
      match db.source_of (ItemId.enum enum_) with
      | some src => map.insert Slot.ENUM src enum_
      | none => map
  | _ => map

/-- The loop body of the `impls` loop of `impl ChildBySource for ModuleId`. -/

def module_impl_step (db : DefDatabase) (res : DynMap) (imp : ImplId) : DynMap :=
  match db.source_of (ItemId.impl imp) with
  | some src => res.insert Slot.IMPL src imp
  | none => res

/-- `impl ChildBySource for ModuleId`: route every declaration of the
module's scope through `add_module_def`, then insert every impl of the
scope into the `IMPL` slot. -/

def ModuleId.child_by_source (db : DefDatabase) (self : ModuleId) : DynMap :=
  (db.module_impls self).foldl (module_impl_step db)
    ((db.module_decls self).foldl (add_module_def db) DynMap.default)

/-- The loop body of `impl ChildBySource for VariantId`: a field whose
arena source is `Left` (tuple-style) goes to `TUPLE_FIELD`, `Right`
(record-style) to `RECORD_FIELD`. -/

def variant_field_step (self : VariantId) (res : DynMap)
    (pr : Nat × Either SourceLocation SourceLocation) : DynMap :=
  match pr with
  | (local_id, Either.left source) =>
    res.insert Slot.TUPLE_FIELD source (StructFieldId.mk self local_id)
  | (local_id, Either.right source) =>
    res.insert Slot.RECORD_FIELD source (StructFieldId.mk self local_id)

/-- `impl ChildBySource for VariantId`: iterate the field arena with its
sources. -/

def VariantId.child_by_source (db : DefDatabase) (self : VariantId) : DynMap :=
  (db.variant_child_source self).foldl (variant_field_step self) DynMap.default

/-- The loop body of `impl ChildBySource for EnumId`: every variant goes to
`ENUM_VARIANT`, keyed by its arena source. -/

def enum_variant_step (self : EnumId) (res : DynMap)
    (pr : Nat × SourceLocation) : DynMap :=
  res.insert Slot.ENUM_VARIANT pr.2 (EnumVariantId.mk self pr.1)

/-- `impl ChildBySource for EnumId`: iterate the variant arena with its
sources. -/

def EnumId.child_by_source (db : DefDatabase) (self : EnumId) : DynMap :=
  (db.enum_child_source self).foldl (enum_variant_step self) DynMap.default

/-- `impl ChildBySource for DefWithBodyId`: route every body-local
definition through `add_module_def`. -/

def DefWithBodyId.child_by_source (db : DefDatabase) (self : DefWithBodyId) : DynMap :=
  (db.body_defs self).foldl (add_module_def db) DynMap.default

/-- The supported parent kinds (spec §3). -/

inductive ParentId where
  | trait (t : TraitId)
  | impl (i : ImplId)
  | module (m : ModuleId)
  | variant (v : VariantId)
  | enum (e : EnumId)
  | defWithBody (d : DefWithBodyId)
deriving DecidableEq

/-- Dispatch `child_by_source` on the parent's kind. -/

def ParentId.child_by_source (db : DefDatabase) : ParentId → DynMap
  | .trait t => TraitId.child_by_source db t
  | .impl i => ImplId.child_by_source db i
  | .module m => ModuleId.child_by_source db m
  | .variant v => VariantId.child_by_source db v
  | .enum e => EnumId.child_by_source db e
  | .defWithBody d => DefWithBodyId.child_by_source db d

/-- One child as reported by the database for some parent: the slot its
kind selects, its semantic id, and its (possibly unresolvable) source. -/

structure ChildEntry where
  slot : Slot
  val : Slot.Val slot
  src : Option SourceLocation

/-- The child record of one associated item (shared three-way rule). -/

def assocEntry (db : DefDatabase) : AssocItemId → ChildEntry
  | .functionId f => ⟨Slot.FUNCTION, f, db.source_of (ItemId.function f)⟩
  | .constId c => ⟨Slot.CONST, c, db.source_of (ItemId.const c)⟩
  | .typeAliasId t => ⟨Slot.TYPE_ALIAS, t, db.source_of (ItemId.typeAlias t)⟩

/-- The child record of one module-level (or body-local) declaration;
`none` for the kinds outside the handled set. -/

def declEntry? (db : DefDatabase) : ModuleDefId → Option ChildEntry
  | .functionId f => some ⟨Slot.FUNCTION, f, db.source_of (ItemId.function f)⟩
  | .constId c => some ⟨Slot.CONST, c, db.source_of (ItemId.const c)⟩
  | .staticId s => some ⟨Slot.STATIC, s, db.source_of (ItemId.static s)⟩
  | .typeAliasId t => some ⟨Slot.TYPE_ALIAS, t, db.source_of (ItemId.typeAlias t)⟩
  | .traitId t => some ⟨Slot.TRAIT, t, db.source_of (ItemId.trait t)⟩
  | .adtId (.structId s) => some ⟨Slot.STRUCT, s, db.source_of (ItemId.struct s)⟩
  | .adtId (.unionId u) => some ⟨Slot.UNION, u, db.source_of (ItemId.union u)⟩
  | .adtId (.enumId e) => some ⟨Slot.ENUM, e, db.source_of (ItemId.enum e)⟩
  | _ => none

/-- The child record of one impl in a module's scope. -/

def implEntry (db : DefDatabase) (i : ImplId) : ChildEntry :=
  ⟨Slot.IMPL, i, db.source_of (ItemId.impl i)⟩

/-- The child record of one field of the arena of `v` (arena sources are
always present, spec §6). -/

def fieldEntry (v : VariantId) : Nat × Either SourceLocation SourceLocation → ChildEntry
  | (local_id, .left s) => ⟨Slot.TUPLE_FIELD, StructFieldId.mk v local_id, some s⟩
  | (local_id, .right s) => ⟨Slot.RECORD_FIELD, StructFieldId.mk v local_id, some s⟩

/-- The child record of one variant of the arena of `e`. -/

def variantEntry (e : EnumId) (pr : Nat × SourceLocation) : ChildEntry :=
  ⟨Slot.ENUM_VARIANT, EnumVariantId.mk e pr.1, some pr.2⟩

/-- The children the database reports for a parent, with the slot each
child's kind selects and the child's resolved source (children of kinds
outside the handled set do not select a slot and are not listed). -/

def reportedChildren (db : DefDatabase) : ParentId → List ChildEntry
  | .trait t => (db.trait_data t).map (assocEntry db)
  | .impl i => (db.impl_data i).map (assocEntry db)
  | .module m =>
    (db.module_decls m).filterMap (declEntry? db) ++ (db.module_impls m).map (implEntry db)
  | .variant v => (db.variant_child_source v).map (fieldEntry v)
  | .enum e => (db.enum_child_source e).map (variantEntry e)
  | .defWithBody d => (db.body_defs d).filterMap (declEntry? db)

/-- Process one child record: insert it under its slot when its source
resolved, skip it otherwise. -/

def buildStep (m : DynMap) (e : ChildEntry) : DynMap :=
  match e.src with
  | some s => m.insert e.slot s e.val
  | none => m

/-- Build the map from a list of child records. -/

def buildMap (l : List ChildEntry) : DynMap :=
  l.foldl buildStep DynMap.default

/-- The (slot, location) key a child record occupies, when its source
resolved. -/

def ChildEntry.key? (e : ChildEntry) : Option (Slot × SourceLocation) :=
  e.src.map (fun s => (e.slot, s))

/-- Well-formed lowering (spec §8 "Uniqueness"): the children reported for
one parent occupy pairwise distinct (slot, location) keys. -/

def WellKeyed (l : List ChildEntry) : Prop :=
  l.Pairwise (fun e e' => e.key? = none ∨ e.key? ≠ e'.key?)

/-- The semantic id of an associated item, as an `ItemId`. -/

def AssocItemId.toItemId : AssocItemId → ItemId
  | .functionId f => ItemId.function f
  | .constId c => ItemId.const c
  | .typeAliasId t => ItemId.typeAlias t

/-- The semantic id of a module-scope (or body-local) declaration, as an
`ItemId`. -/

def ModuleDefId.toItemId : ModuleDefId → ItemId
  | .moduleId m => ItemId.module m
  | .functionId f => ItemId.function f
  | .adtId (.structId s) => ItemId.struct s
  | .adtId (.unionId u) => ItemId.union u
  | .adtId (.enumId e) => ItemId.enum e
  | .enumVariantId v => ItemId.enumVariant v
  | .constId c => ItemId.const c
  | .staticId s => ItemId.static s
  | .traitId t => ItemId.trait t
  | .typeAliasId t => ItemId.typeAlias t
  | .builtinType b => ItemId.builtin b

/-- Follows the words of claim C2 (the spec-side count, for comparison with
the map the dispatcher builds): the number of ALL children the database
reports for `p` — of any kind, handled by the dispatcher or not — whose
source location is resolvable. -/

def allResolvableChildCount (db : DefDatabase) : ParentId → Nat
  | .trait t => (db.trait_data t).countP (fun i => (db.source_of i.toItemId).isSome)
  | .impl i => (db.impl_data i).countP (fun it => (db.source_of it.toItemId).isSome)
  | .module m => (db.module_decls m).countP (fun it => (db.source_of it.toItemId).isSome)
      + (db.module_impls m).countP (fun i => (db.source_of (ItemId.impl i)).isSome)
  | .variant v => (db.variant_child_source v).length
  | .enum e => (db.enum_child_source e).length
  | .defWithBody d => (db.body_defs d).countP (fun it => (db.source_of it.toItemId).isSome)

/-- A database snapshot holding a trait with two associated functions that
both resolve to the same source location (malformed lowering, which the
database may nevertheless report; spec §8/§9). -/

def dbDup : DefDatabase :=
  ⟨fun _ => [AssocItemId.functionId ⟨1⟩, AssocItemId.functionId ⟨2⟩],
   fun _ => [], fun _ => [], fun _ => [], fun _ => [],
   fun _ => some ⟨0, 7⟩,
   fun _ => [], fun _ => []⟩

/-- A database snapshot holding a module whose only declaration is a
submodule — a child kind outside the set the dispatcher handles — with a
resolvable source. -/

def dbSub : DefDatabase :=
  ⟨fun _ => [], fun _ => [],
   fun _ => [ModuleDefId.moduleId ⟨0, 1⟩],
   fun _ => [], fun _ => [],
   fun _ => some ⟨0, 3⟩,
   fun _ => [], fun _ => []⟩

/-- A database snapshot holding a trait with one synthetic (source-less)
function and one const with a resolvable source. -/

def dbSkip : DefDatabase :=
  ⟨fun _ => [AssocItemId.functionId ⟨1⟩, AssocItemId.constId ⟨2⟩],
   fun _ => [], fun _ => [], fun _ => [], fun _ => [],
   fun it => match it with
     | ItemId.const _ => some ⟨0, 9⟩
     | _ => none,
   fun _ => [], fun _ => []⟩

/-- A database snapshot holding an enum with one variant. -/

def dbEnum1 : DefDatabase :=
  ⟨fun _ => [], fun _ => [], fun _ => [], fun _ => [], fun _ => [],
   fun _ => none,
   fun _ => [], fun _ => [(0, ⟨1, 5⟩)]⟩

/-- A database snapshot holding an enum with three variants at distinct
source locations, and a struct variant with one tuple field and one
record field. -/

def dbEnum3 : DefDatabase :=
  ⟨fun _ => [], fun _ => [], fun _ => [], fun _ => [], fun _ => [],
   fun _ => none,
   fun _ => [(0, Either.left ⟨3, 0⟩), (1, Either.right ⟨3, 1⟩)],
   fun _ => [(0, ⟨2, 0⟩), (1, ⟨2, 1⟩), (2, ⟨2, 2⟩)]⟩

/-- A database snapshot where a trait and an impl carry the same associated
item list, a module and a body carry the same declaration list, and every
id resolves to a source. -/

def dbSame : DefDatabase :=
  ⟨fun _ => [AssocItemId.functionId ⟨1⟩],
   fun _ => [AssocItemId.functionId ⟨1⟩],
   fun _ => [ModuleDefId.functionId ⟨4⟩, ModuleDefId.moduleId ⟨0, 1⟩],
   fun _ => [],
   fun _ => [ModuleDefId.functionId ⟨4⟩, ModuleDefId.moduleId ⟨0, 1⟩],
   fun _ => some ⟨0, 1⟩,
   fun _ => [], fun _ => []⟩

theorem lookupKey_removeKey {α : Type} (k k' : SourceLocation)
    (l : List (SourceLocation × α)) (h : k' ≠ k) :
    lookupKey k' (removeKey k l) = lookupKey k' l := by
  induction l with
  | nil => rfl
  | cons a rest ih =>
    obtain ⟨a1, a2⟩ := a
    by_cases h1 : a1 = k
    · have hne : ¬a1 = k' := fun he => h (he ▸ h1)
      rw [removeKey, if_pos h1, ih, lookupKey, if_neg hne]
    · rw [removeKey, if_neg h1, lookupKey, lookupKey, ih]

theorem removeKey_sublist {α : Type} (k : SourceLocation) (l : List (SourceLocation × α)) :
    (removeKey k l).Sublist l := by
  induction l with
  | nil => exact List.Sublist.refl _
  | cons a rest ih =>
    obtain ⟨a1, a2⟩ := a
    by_cases h1 : a1 = k
    · simp only [removeKey, if_pos h1]
      exact ih.cons _
    · simp only [removeKey, if_neg h1]
      exact ih.cons₂ _

theorem mem_removeKey {α : Type} {k : SourceLocation} {l : List (SourceLocation × α)}
    {p : SourceLocation × α} (h : p ∈ removeKey k l) : p ∈ l :=
  (removeKey_sublist k l).mem h

theorem fst_ne_of_mem_removeKey {α : Type} {k : SourceLocation}
    {l : List (SourceLocation × α)} {p : SourceLocation × α}
    (h : p ∈ removeKey k l) : p.1 ≠ k := by
  induction l with
  | nil => cases h
  | cons a rest ih =>
    obtain ⟨a1, a2⟩ := a
    by_cases h1 : a1 = k
    · rw [removeKey, if_pos h1] at h
      exact ih h
    · rw [removeKey, if_neg h1] at h
      rcases List.mem_cons.mp h with rfl | h2
      · exact h1
      · exact ih h2

theorem mem_removeKey_of_mem {α : Type} {k : SourceLocation}
    {l : List (SourceLocation × α)} {p : SourceLocation × α}
    (h : p ∈ l) (hne : p.1 ≠ k) : p ∈ removeKey k l := by
  induction l with
  | nil => cases h
  | cons a rest ih =>
    obtain ⟨a1, a2⟩ := a
    rcases List.mem_cons.mp h with rfl | h2
    · rw [removeKey, if_neg hne]
      exact List.mem_cons_self _ _
    · by_cases h1 : a1 = k
      · rw [removeKey, if_pos h1]; exact ih h2
      · rw [removeKey, if_neg h1]; exact List.mem_cons_of_mem _ (ih h2)

theorem removeKey_eq_self {α : Type} (k : SourceLocation)
    (l : List (SourceLocation × α)) (h : k ∉ l.map Prod.fst) :
    removeKey k l = l := by
  induction l with
  | nil => rfl
  | cons a rest ih =>
    obtain ⟨a1, a2⟩ := a
    simp only [List.map_cons, List.mem_cons] at h
    push_neg at h
    rw [removeKey, if_neg (fun he => h.1 he.symm), ih h.2]

theorem DynMap.slots_insert_self (m : DynMap) (s : Slot) (k : SourceLocation)
    (v : Slot.Val s) :
    (m.insert s k v).slots s = (k, v) :: removeKey k (m.slots s) := by
  show (if h : s = s then (k, h ▸ v) :: removeKey k (m.slots s) else m.slots s) = _
  rw [dif_pos rfl]

theorem DynMap.slots_insert_ne (m : DynMap) {s t : Slot} (h : s ≠ t)
    (k : SourceLocation) (v : Slot.Val s) :
    (m.insert s k v).slots t = m.slots t := by
  show (if hh : s = t then (k, hh ▸ v) :: removeKey k (m.slots t) else m.slots t) = _
  rw [dif_neg h]

theorem DynMap.get_insert_self (m : DynMap) (s : Slot) (k : SourceLocation)
    (v : Slot.Val s) : (m.insert s k v).get s k = some v := by
  rw [DynMap.get, DynMap.slots_insert_self, lookupKey, if_pos rfl]

theorem DynMap.get_insert_ne_key (m : DynMap) (s : Slot) {k k' : SourceLocation}
    (h : k' ≠ k) (v : Slot.Val s) : (m.insert s k v).get s k' = m.get s k' := by
  rw [DynMap.get, DynMap.slots_insert_self, lookupKey,
    if_neg (fun he => h he.symm), lookupKey_removeKey _ _ _ h]
  rfl

theorem DynMap.get_insert_ne_slot (m : DynMap) {s t : Slot} (h : s ≠ t)
    (k k' : SourceLocation) (v : Slot.Val s) :
    (m.insert s k v).get t k' = m.get t k' := by
  rw [DynMap.get, DynMap.slots_insert_ne m h, DynMap.get]

theorem DynMap.get_insert_ne (m : DynMap) {s t : Slot} {k k' : SourceLocation}
    (h : ¬(s = t ∧ k = k')) (v : Slot.Val s) :
    (m.insert s k v).get t k' = m.get t k' := by
  by_cases hs : s = t
  · subst hs
    exact DynMap.get_insert_ne_key m _ (fun he => h ⟨rfl, he.symm⟩) v
  · exact m.get_insert_ne_slot hs k k' v

theorem trait_corr (db : DefDatabase) (t : TraitId) :
    TraitId.child_by_source db t = buildMap (reportedChildren db (ParentId.trait t)) := by
  show (db.trait_data t).foldl (trait_assoc_step db) DynMap.default
    = ((db.trait_data t).map (assocEntry db)).foldl buildStep DynMap.default
  rw [List.foldl_map]
  congr 1
  funext res item
  cases item <;> rfl

theorem impl_corr (db : DefDatabase) (i : ImplId) :
    ImplId.child_by_source db i = buildMap (reportedChildren db (ParentId.impl i)) := by
  show (db.impl_data i).foldl (impl_assoc_step db) DynMap.default
    = ((db.impl_data i).map (assocEntry db)).foldl buildStep DynMap.default
  rw [List.foldl_map]
  congr 1
  funext res item
  cases item <;> rfl

theorem foldl_add_module_def (db : DefDatabase) (l : List ModuleDefId) (m : DynMap) :
    l.foldl (add_module_def db) m = (l.filterMap (declEntry? db)).foldl buildStep m := by
  induction l generalizing m with
  | nil => rfl
  | cons a rest ih =>
    rw [List.foldl_cons]
    cases a with
    | adtId adt =>
      cases adt <;>
        (simp only [List.filterMap_cons, declEntry?, List.foldl_cons]; rw [ih]; rfl)
    | _ =>
      simp only [List.filterMap_cons, declEntry?, List.foldl_cons]; rw [ih]; rfl

theorem module_corr (db : DefDatabase) (mo : ModuleId) :
    ModuleId.child_by_source db mo = buildMap (reportedChildren db (ParentId.module mo)) := by
  show (db.module_impls mo).foldl (module_impl_step db)
      ((db.module_decls mo).foldl (add_module_def db) DynMap.default)
    = ((db.module_decls mo).filterMap (declEntry? db)
        ++ (db.module_impls mo).map (implEntry db)).foldl buildStep DynMap.default
  rw [List.foldl_append, foldl_add_module_def, List.foldl_map]
  congr 1

theorem variant_corr (db : DefDatabase) (v : VariantId) :
    VariantId.child_by_source db v = buildMap (reportedChildren db (ParentId.variant v)) := by
  show (db.variant_child_source v).foldl (variant_field_step v) DynMap.default
    = ((db.variant_child_source v).map (fieldEntry v)).foldl buildStep DynMap.default
  rw [List.foldl_map]
  congr 1
  funext res pr
  obtain ⟨lid, src⟩ := pr
  cases src <;> rfl

theorem enum_corr (db : DefDatabase) (e : EnumId) :
    EnumId.child_by_source db e = buildMap (reportedChildren db (ParentId.enum e)) := by
  show (db.enum_child_source e).foldl (enum_variant_step e) DynMap.default
    = ((db.enum_child_source e).map (variantEntry e)).foldl buildStep DynMap.default
  rw [List.foldl_map]
  congr 1

theorem body_corr (db : DefDatabase) (d : DefWithBodyId) :
    DefWithBodyId.child_by_source db d
      = buildMap (reportedChildren db (ParentId.defWithBody d)) := by
  show (db.body_defs d).foldl (add_module_def db) DynMap.default
    = ((db.body_defs d).filterMap (declEntry? db)).foldl buildStep DynMap.default
  rw [foldl_add_module_def]

theorem child_by_source_corr (db : DefDatabase) (p : ParentId) :
    ParentId.child_by_source db p = buildMap (reportedChildren db p) := by
  cases p with
  | trait t => exact trait_corr db t
  | impl i => exact impl_corr db i
  | module m => exact module_corr db m
  | variant v => exact variant_corr db v
  | enum e => exact enum_corr db e
  | defWithBody d => exact body_corr db d

theorem get_foldl_buildStep_of_not_key (l : List ChildEntry) :
    ∀ (m : DynMap) (S : Slot) (s : SourceLocation),
      (∀ e ∈ l, e.key? ≠ some (S, s)) →
      (l.foldl buildStep m).get S s = m.get S s := by
  induction l with
  | nil => intro m S s _; rfl
  | cons a rest ih =>
    intro m S s h
    rw [List.foldl_cons, ih _ S s (fun e he => h e (List.mem_cons_of_mem _ he))]
    cases ha : a.src with
    | none => simp [buildStep, ha]
    | some s' =>
      have hstep : buildStep m a = m.insert a.slot s' a.val := by simp [buildStep, ha]
      rw [hstep]
      apply DynMap.get_insert_ne
      rintro ⟨rfl, rfl⟩
      exact h a (List.mem_cons_self _ _) (by rw [ChildEntry.key?, ha]; rfl)

theorem get_buildMap_of_mem (l : List ChildEntry) :
    ∀ (m : DynMap), WellKeyed l → ∀ e ∈ l, ∀ (s : SourceLocation), e.src = some s →
      (l.foldl buildStep m).get e.slot s = some e.val := by
  induction l with
  | nil => intro m _ e he; cases he
  | cons a rest ih =>
    intro m hwk e he s hs
    rw [WellKeyed, List.pairwise_cons] at hwk
    rcases List.mem_cons.mp he with rfl | he'
    · rw [List.foldl_cons]
      have hkey : e.key? = some (e.slot, s) := by rw [ChildEntry.key?, hs]; rfl
      have hrest : ∀ e' ∈ rest, e'.key? ≠ some (e.slot, s) := by
        intro e' he'' hc
        rcases hwk.1 e' he'' with hnone | hne
        · rw [hkey] at hnone; cases hnone
        · exact hne (hkey.trans hc.symm)
      rw [get_foldl_buildStep_of_not_key rest _ e.slot s hrest]
      have hstep : buildStep m e = m.insert e.slot s e.val := by simp [buildStep, hs]
      rw [hstep]
      exact DynMap.get_insert_self m e.slot s e.val
    · rw [List.foldl_cons]
      exact ih (buildStep m a) hwk.2 e he' s hs

theorem mem_keys_removeKey {α : Type} {k x : SourceLocation}
    {l : List (SourceLocation × α)} (h : x ∈ (removeKey k l).map Prod.fst) :
    x ∈ l.map Prod.fst :=
  ((removeKey_sublist k l).map Prod.fst).mem h

theorem DynMap.mem_keys_slots_insert {m : DynMap} {s t : Slot}
    {k : SourceLocation} {v : Slot.Val s} {x : SourceLocation}
    (h : x ∈ ((m.insert s k v).slots t).map Prod.fst) :
    x = k ∨ x ∈ (m.slots t).map Prod.fst := by
  by_cases hs : s = t
  · subst hs
    rw [DynMap.slots_insert_self, List.map_cons] at h
    rcases List.mem_cons.mp h with rfl | h2
    · exact Or.inl rfl
    · exact Or.inr (mem_keys_removeKey h2)
  · rw [DynMap.slots_insert_ne m hs] at h
    exact Or.inr h

theorem DynMap.totalEntries_insert (m : DynMap) (s : Slot) (k : SourceLocation)
    (v : Slot.Val s) (h : k ∉ (m.slots s).map Prod.fst) :
    (m.insert s k v).totalEntries = m.totalEntries + 1 := by
  have hrk := removeKey_eq_self k (m.slots s) h
  cases s <;> simp [DynMap.totalEntries, Slot.all, DynMap.insert, hrk] <;> omega

theorem totalEntries_foldl_buildStep (l : List ChildEntry) :
    ∀ (m : DynMap), WellKeyed l →
      (∀ e ∈ l, ∀ s, e.src = some s → s ∉ (m.slots e.slot).map Prod.fst) →
      (l.foldl buildStep m).totalEntries
        = m.totalEntries + l.countP (fun e => e.src.isSome) := by
  induction l with
  | nil => intro m _ _; simp
  | cons a rest ih =>
    intro m hwk hfresh
    rw [WellKeyed, List.pairwise_cons] at hwk
    rw [List.foldl_cons, List.countP_cons]
    cases ha : a.src with
    | none =>
      have hstep : buildStep m a = m := by simp [buildStep, ha]
      rw [hstep, ih m hwk.2 (fun e he s hs => hfresh e (List.mem_cons_of_mem _ he) s hs)]
      simp [ha]
    | some s =>
      have hstep : buildStep m a = m.insert a.slot s a.val := by simp [buildStep, ha]
      have hakey : a.key? = some (a.slot, s) := by rw [ChildEntry.key?, ha]; rfl
      have hfresh' : ∀ e ∈ rest, ∀ s', e.src = some s' →
          s' ∉ ((m.insert a.slot s a.val).slots e.slot).map Prod.fst := by
        intro e he s' hs' hmem
        rcases DynMap.mem_keys_slots_insert hmem with rfl | h2
        · by_cases hslot : a.slot = e.slot
          · rcases hwk.1 e he with hnone | hne
            · rw [hakey] at hnone; cases hnone
            · apply hne
              rw [hakey, ChildEntry.key?, hs', hslot]
              rfl
          · -- the key can only collide inside slot `e.slot`, but the insert
            -- happened in the distinct slot `a.slot`
            rw [DynMap.slots_insert_ne m hslot] at hmem
            exact hfresh e (List.mem_cons_of_mem _ he) s' hs' hmem
        · exact hfresh e (List.mem_cons_of_mem _ he) s' hs' h2
      rw [hstep, ih (m.insert a.slot s a.val) hwk.2 hfresh',
        DynMap.totalEntries_insert m a.slot s a.val
          (hfresh a (List.mem_cons_self _ _) s ha)]
      simp only [Option.isSome_some, if_pos]
      omega

theorem enum_slots_other (e : EnumId) (l : List (Nat × SourceLocation)) :
    ∀ (m : DynMap) (t : Slot), t ≠ Slot.ENUM_VARIANT →
      (l.foldl (enum_variant_step e) m).slots t = m.slots t := by
  induction l with
  | nil => intro m t _; rfl
  | cons a rest ih =>
    intro m t ht
    rw [List.foldl_cons, ih _ t ht, enum_variant_step,
      DynMap.slots_insert_ne _ (fun hh => ht hh.symm)]

theorem variant_slots_other (v : VariantId)
    (l : List (Nat × Either SourceLocation SourceLocation)) :
    ∀ (m : DynMap) (t : Slot), t ≠ Slot.TUPLE_FIELD → t ≠ Slot.RECORD_FIELD →
      (l.foldl (variant_field_step v) m).slots t = m.slots t := by
  induction l with
  | nil => intro m t _ _; rfl
  | cons a rest ih =>
    intro m t h1 h2
    rw [List.foldl_cons, ih _ t h1 h2]
    obtain ⟨lid, src⟩ := a
    cases src with
    | left s =>
      show (DynMap.insert _ Slot.TUPLE_FIELD s _).slots t = _
      rw [DynMap.slots_insert_ne _ (fun hh => h1 hh.symm)]
    | right s =>
      show (DynMap.insert _ Slot.RECORD_FIELD s _).slots t = _
      rw [DynMap.slots_insert_ne _ (fun hh => h2 hh.symm)]

theorem enum_slots_enum_variant (e : EnumId) (l : List (Nat × SourceLocation)) :
    ∀ (m : DynMap),
      List.Pairwise (fun p q => p.2 ≠ q.2) l →
      (∀ p ∈ l, p.2 ∉ (m.slots Slot.ENUM_VARIANT).map Prod.fst) →
      (l.foldl (enum_variant_step e) m).slots Slot.ENUM_VARIANT
        = (l.map (fun pr => ((pr.2, EnumVariantId.mk e pr.1) :
              SourceLocation × Slot.Val Slot.ENUM_VARIANT))).reverse
            ++ m.slots Slot.ENUM_VARIANT := by
  induction l with
  | nil => intro m _ _; simp
  | cons a rest ih =>
    intro m hp hf
    rw [List.pairwise_cons] at hp
    rw [List.foldl_cons]
    have hstep : (enum_variant_step e m a).slots Slot.ENUM_VARIANT
        = (a.2, EnumVariantId.mk e a.1) :: m.slots Slot.ENUM_VARIANT := by
      rw [enum_variant_step, DynMap.slots_insert_self,
        removeKey_eq_self _ _ (hf a (List.mem_cons_self _ _))]
    have hf' : ∀ p ∈ rest,
        p.2 ∉ ((enum_variant_step e m a).slots Slot.ENUM_VARIANT).map Prod.fst := by
      intro p hp2 hmem
      rw [hstep, List.map_cons] at hmem
      rcases List.mem_cons.mp hmem with he | hm
      · exact hp.1 p hp2 he.symm
      · exact hf p (List.mem_cons_of_mem _ hp2) hm
    rw [ih _ hp.2 hf', hstep]
    simp

theorem enum_mem_elim (e : EnumId) (l : List (Nat × SourceLocation)) :
    ∀ (m : DynMap) (p : SourceLocation × EnumVariantId),
      p ∈ (l.foldl (enum_variant_step e) m).slots Slot.ENUM_VARIANT →
      p ∈ m.slots Slot.ENUM_VARIANT ∨ ∃ pr ∈ l, p = (pr.2, EnumVariantId.mk e pr.1) := by
  induction l with
  | nil => intro m p h; exact Or.inl h
  | cons a rest ih =>
    intro m p h
    rw [List.foldl_cons] at h
    rcases ih _ p h with h2 | h2
    · rw [enum_variant_step, DynMap.slots_insert_self] at h2
      rcases List.mem_cons.mp h2 with rfl | h3
      · exact Or.inr ⟨a, List.mem_cons_self _ _, rfl⟩
      · exact Or.inl (mem_removeKey h3)
    · obtain ⟨pr, hpr, hp⟩ := h2
      exact Or.inr ⟨pr, List.mem_cons_of_mem _ hpr, hp⟩

theorem variant_mem_elim_tuple (v : VariantId)
    (l : List (Nat × Either SourceLocation SourceLocation)) :
    ∀ (m : DynMap) (p : SourceLocation × StructFieldId),
      p ∈ (l.foldl (variant_field_step v) m).slots Slot.TUPLE_FIELD →
      p ∈ m.slots Slot.TUPLE_FIELD
        ∨ ∃ lid s, (lid, Either.left s) ∈ l ∧ p = (s, StructFieldId.mk v lid) := by
  induction l with
  | nil => intro m p h; exact Or.inl h
  | cons a rest ih =>
    intro m p h
    rw [List.foldl_cons] at h
    rcases ih _ p h with h2 | h2
    · obtain ⟨lid, src⟩ := a
      cases src with
      | left s =>
        rw [show variant_field_step v m (lid, Either.left s)
            = m.insert Slot.TUPLE_FIELD s (StructFieldId.mk v lid) from rfl,
          DynMap.slots_insert_self] at h2
        rcases List.mem_cons.mp h2 with rfl | h3
        · exact Or.inr ⟨lid, s, List.mem_cons_self _ _, rfl⟩
        · exact Or.inl (mem_removeKey h3)
      | right s =>
        rw [show variant_field_step v m (lid, Either.right s)
            = m.insert Slot.RECORD_FIELD s (StructFieldId.mk v lid) from rfl,
          DynMap.slots_insert_ne _ (fun hh => Slot.noConfusion hh)] at h2
        exact Or.inl h2
    · obtain ⟨lid, s, hmem, hp⟩ := h2
      exact Or.inr ⟨lid, s, List.mem_cons_of_mem _ hmem, hp⟩

theorem variant_mem_elim_record (v : VariantId)
    (l : List (Nat × Either SourceLocation SourceLocation)) :
    ∀ (m : DynMap) (p : SourceLocation × StructFieldId),
      p ∈ (l.foldl (variant_field_step v) m).slots Slot.RECORD_FIELD →
      p ∈ m.slots Slot.RECORD_FIELD
        ∨ ∃ lid s, (lid, Either.right s) ∈ l ∧ p = (s, StructFieldId.mk v lid) := by
  induction l with
  | nil => intro m p h; exact Or.inl h
  | cons a rest ih =>
    intro m p h
    rw [List.foldl_cons] at h
    rcases ih _ p h with h2 | h2
    · obtain ⟨lid, src⟩ := a
      cases src with
      | left s =>
        rw [show variant_field_step v m (lid, Either.left s)
            = m.insert Slot.TUPLE_FIELD s (StructFieldId.mk v lid) from rfl,
          DynMap.slots_insert_ne _ (fun hh => Slot.noConfusion hh)] at h2
        exact Or.inl h2
      | right s =>
        rw [show variant_field_step v m (lid, Either.right s)
            = m.insert Slot.RECORD_FIELD s (StructFieldId.mk v lid) from rfl,
          DynMap.slots_insert_self] at h2
        rcases List.mem_cons.mp h2 with rfl | h3
        · exact Or.inr ⟨lid, s, List.mem_cons_self _ _, rfl⟩
        · exact Or.inl (mem_removeKey h3)
    · obtain ⟨lid, s, hmem, hp⟩ := h2
      exact Or.inr ⟨lid, s, List.mem_cons_of_mem _ hmem, hp⟩

theorem enum_wellKeyed (db : DefDatabase) (e : EnumId)
    (h : List.Pairwise (fun p q => p.2 ≠ q.2) (db.enum_child_source e)) :
    WellKeyed (reportedChildren db (ParentId.enum e)) := by
  rw [WellKeyed, reportedChildren]
  refine List.Pairwise.map _ ?_ h
  intro p q hpq
  right
  intro hc
  simp only [variantEntry, ChildEntry.key?, Option.map_some', Option.some.injEq,
    Prod.mk.injEq, true_and] at hc
  exact hpq hc

theorem variant_wellKeyed (db : DefDatabase) (v : VariantId)
    (h : List.Pairwise (fun p q => p.2 ≠ q.2) (db.variant_child_source v)) :
    WellKeyed (reportedChildren db (ParentId.variant v)) := by
  rw [WellKeyed, reportedChildren]
  refine List.Pairwise.map _ ?_ h
  rintro ⟨lid, src⟩ ⟨lid', src'⟩ hpq
  right
  intro hc
  cases src <;> cases src' <;>
      simp only [fieldEntry, ChildEntry.key?, Option.map_some', Option.some.injEq,
        Prod.mk.injEq] at hc
  · exact hpq (by rw [hc.2])
  · exact absurd hc.1 (by decide)
  · exact absurd hc.1 (by decide)
  · exact hpq (by rw [hc.2])

/-- **C7** (slot isolation): inserting `v` under `k` into slot `A` leaves
every lookup in a different slot `B` unchanged — both every `get` result
and the whole inner map of `B` — even when locations overlap textually
(the key `k` may equal any key of `B`). -/
theorem c7_slot_isolation (m : DynMap) (A B : Slot) (hAB : A ≠ B)
    (k : SourceLocation) (v : Slot.Val A) :
    (∀ k' : SourceLocation, (m.insert A k v).get B k' = m.get B k')
    ∧ (m.insert A k v).slots B = m.slots B :=
  ⟨fun k' => m.get_insert_ne_slot hAB k k' v, m.slots_insert_ne hAB k v⟩

/-- Witness for C7 at a concrete map, slots and key. -/
theorem c7_slot_isolation_witness :
    Slot.FUNCTION ≠ Slot.CONST
    ∧ ((DynMap.default.insert Slot.FUNCTION ⟨0, 7⟩ ⟨1⟩).get Slot.CONST ⟨0, 7⟩
        = DynMap.default.get Slot.CONST ⟨0, 7⟩) := by
  have h : Slot.FUNCTION ≠ Slot.CONST := by decide
  exact ⟨h, (c7_slot_isolation DynMap.default Slot.FUNCTION Slot.CONST h ⟨0, 7⟩ ⟨1⟩).1 ⟨0, 7⟩⟩

/-- **C8** (last write wins): inserting twice under the same key in the same
slot makes a subsequent `get` return the later value; other keys of the
slot are unaffected; and `insert` preserves uniqueness of the keys of a
slot's inner map. -/
theorem c8_last_write_wins (m : DynMap) (s : Slot) (k : SourceLocation)
    (v1 v2 : Slot.Val s) :
    (((m.insert s k v1).insert s k v2).get s k = some v2)
    ∧ (∀ k' : SourceLocation, k' ≠ k →
        ((m.insert s k v1).insert s k v2).get s k' = m.get s k')
    ∧ (∀ (t : Slot) (w : Slot.Val s),
        (((m.slots t).map Prod.fst).Nodup) →
          ((((m.insert s k w).slots t).map Prod.fst).Nodup)) := by
  refine ⟨DynMap.get_insert_self _ s k v2, ?_, ?_⟩
  · intro k' hk
    rw [DynMap.get_insert_ne_key _ s hk, DynMap.get_insert_ne_key _ s hk]
  · intro t w hnd
    by_cases hs : s = t
    · subst hs
      rw [DynMap.slots_insert_self, List.map_cons, List.nodup_cons]
      refine ⟨?_, hnd.sublist ((removeKey_sublist k (m.slots s)).map Prod.fst)⟩
      intro hmem
      rcases List.mem_map.mp hmem with ⟨p, hp, hfst⟩
      exact fst_ne_of_mem_removeKey hp hfst
    · rw [DynMap.slots_insert_ne m hs]
      exact hnd

/-- Witness for C8 at a concrete map, slot, key and values. -/
theorem c8_last_write_wins_witness :
    (((DynMap.default.insert Slot.FUNCTION ⟨0, 7⟩ ⟨1⟩).insert Slot.FUNCTION ⟨0, 7⟩ ⟨2⟩).get
        Slot.FUNCTION ⟨0, 7⟩ = some ⟨2⟩)
    ∧ ((⟨0, 8⟩ : SourceLocation) ≠ ⟨0, 7⟩)
    ∧ (((DynMap.default.insert Slot.FUNCTION ⟨0, 7⟩ ⟨1⟩).insert Slot.FUNCTION ⟨0, 7⟩ ⟨2⟩).get
        Slot.FUNCTION ⟨0, 8⟩ = DynMap.default.get Slot.FUNCTION ⟨0, 8⟩) := by
  have h : (⟨0, 8⟩ : SourceLocation) ≠ ⟨0, 7⟩ := by decide
  exact ⟨(c8_last_write_wins DynMap.default Slot.FUNCTION ⟨0, 7⟩ ⟨1⟩ ⟨2⟩).1, h,
    (c8_last_write_wins DynMap.default Slot.FUNCTION ⟨0, 7⟩ ⟨1⟩ ⟨2⟩).2.1 ⟨0, 8⟩ h⟩

/-- **C9** (Module/DefWithBody shared classification): a module and a
body-owning definition whose reported child lists coincide (and where the
module's scope has no impls, the one child source a body does not have)
produce identical maps — both parent kinds route every declared item
through the single classification routine `add_module_def`. -/
theorem c9_module_body_shared_classification (db : DefDatabase)
    (mo : ModuleId) (d : DefWithBodyId)
    (hdecls : db.module_decls mo = db.body_defs d)
    (himpls : db.module_impls mo = []) :
    ModuleId.child_by_source db mo = DefWithBodyId.child_by_source db d := by
  rw [ModuleId.child_by_source, himpls, List.foldl_nil, hdecls,
    DefWithBodyId.child_by_source]

/-- Witness for C9: in `dbSame` the module `(0,0)` and the body of function
`9` report the same declarations (including an ignored submodule), so the
maps agree. -/
theorem c9_module_body_shared_classification_witness :
    dbSame.module_decls ⟨0, 0⟩ = dbSame.body_defs (DefWithBodyId.functionId ⟨9⟩)
    ∧ dbSame.module_impls ⟨0, 0⟩ = []
    ∧ ModuleId.child_by_source dbSame ⟨0, 0⟩
        = DefWithBodyId.child_by_source dbSame (DefWithBodyId.functionId ⟨9⟩) :=
  ⟨rfl, rfl,
    c9_module_body_shared_classification dbSame ⟨0, 0⟩ (DefWithBodyId.functionId ⟨9⟩) rfl rfl⟩

/-- Counterexample to **C1** as stated: in `dbDup`, function `1` is a child
reported for trait `0` whose source resolves to location `(0,7)`, yet
looking that location up in the `FUNCTION` slot yields function `2` (the
later-inserted child with the same location), not function `1`. -/
theorem c1_round_trip_cx :
    AssocItemId.functionId ⟨1⟩ ∈ dbDup.trait_data ⟨0⟩
    ∧ dbDup.source_of (ItemId.function ⟨1⟩) = some ⟨0, 7⟩
    ∧ (ParentId.child_by_source dbDup (ParentId.trait ⟨0⟩)).get Slot.FUNCTION ⟨0, 7⟩
        = some ⟨2⟩
    ∧ some (⟨2⟩ : FunctionId) ≠ some (⟨1⟩ : FunctionId) := by
  refine ⟨by decide, rfl, by decide, by decide⟩

/-- **C1** (round trip), amended with the spec §8 well-formed-lowering
precondition: provided the children reported for `p` occupy pairwise
distinct (slot, location) keys among those with resolvable sources, every
reported child `e` whose source resolves to `s` satisfies
`child_by_source(p).get(slot_of(e), s) = some (id_of(e))`. -/
theorem c1_round_trip (db : DefDatabase) (p : ParentId) (e : ChildEntry)
    (s : SourceLocation) (hwk : WellKeyed (reportedChildren db p))
    (he : e ∈ reportedChildren db p) (hs : e.src = some s) :
    (ParentId.child_by_source db p).get e.slot s = some e.val := by
  rw [child_by_source_corr]
  exact get_buildMap_of_mem _ _ hwk e he s hs

/-- Witness for C1 at `dbEnum1`: the single variant of enum `4` is found
again under its own source location. -/
theorem c1_round_trip_witness :
    WellKeyed (reportedChildren dbEnum1 (ParentId.enum ⟨4⟩))
    ∧ (ParentId.child_by_source dbEnum1 (ParentId.enum ⟨4⟩)).get Slot.ENUM_VARIANT ⟨1, 5⟩
        = some ⟨⟨4⟩, 0⟩ := by
  have hwk : WellKeyed (reportedChildren dbEnum1 (ParentId.enum ⟨4⟩)) := by
    simp [WellKeyed, reportedChildren, dbEnum1, variantEntry, ChildEntry.key?]
  exact ⟨hwk,
    c1_round_trip dbEnum1 (ParentId.enum ⟨4⟩) ⟨Slot.ENUM_VARIANT, ⟨⟨4⟩, 0⟩, some ⟨1, 5⟩⟩
      ⟨1, 5⟩ hwk (List.Mem.head _) rfl⟩

/-- Counterexample to **C2** as stated ("total entry count across all slots
equals the number of children with resolvable sources"): (a) in `dbSub`
the module's only child is a submodule with a resolvable source — a kind
the dispatcher silently ignores — so the map has 0 entries but 1 child
has a resolvable source; (b) in `dbDup` two trait children share one
location, so the overwrite leaves 1 entry for 2 resolvable children. -/
theorem c2_absent_source_skipped_cx :
    ((ParentId.child_by_source dbSub (ParentId.module ⟨0, 0⟩)).totalEntries = 0
      ∧ allResolvableChildCount dbSub (ParentId.module ⟨0, 0⟩) = 1)
    ∧ ((ParentId.child_by_source dbDup (ParentId.trait ⟨0⟩)).totalEntries = 1
      ∧ allResolvableChildCount dbDup (ParentId.trait ⟨0⟩) = 2) := by
  refine ⟨⟨by decide, by decide⟩, ⟨by decide, by decide⟩⟩

/-- **C2** (absent-source skipping), amended: a child whose source does not
resolve is skipped (the build step leaves the map unchanged, never
failing), and — provided the reported children occupy pairwise distinct
(slot, location) keys — the total entry count across all slots equals the
number of children *of the handled kinds* with resolvable sources. -/
theorem c2_absent_source_skipped (db : DefDatabase) (p : ParentId)
    (hwk : WellKeyed (reportedChildren db p)) :
    (∀ (m : DynMap) (e : ChildEntry), e.src = none → buildStep m e = m)
    ∧ (ParentId.child_by_source db p).totalEntries
        = (reportedChildren db p).countP (fun e => e.src.isSome) := by
  constructor
  · intro m e he
    simp [buildStep, he]
  · rw [child_by_source_corr, buildMap,
      totalEntries_foldl_buildStep (reportedChildren db p) DynMap.default hwk
        (fun e _ s _ hmem => absurd hmem (List.not_mem_nil s)),
      show DynMap.default.totalEntries = 0 from rfl, Nat.zero_add]

/-- Witness for C2 at `dbSkip`: the synthetic function is skipped, so the
map holds exactly one entry — the const with a resolvable source. -/
theorem c2_absent_source_skipped_witness :
    WellKeyed (reportedChildren dbSkip (ParentId.trait ⟨0⟩))
    ∧ (ParentId.child_by_source dbSkip (ParentId.trait ⟨0⟩)).totalEntries
        = (reportedChildren dbSkip (ParentId.trait ⟨0⟩)).countP (fun e => e.src.isSome) := by
  have hwk : WellKeyed (reportedChildren dbSkip (ParentId.trait ⟨0⟩)) := by
    simp [WellKeyed, reportedChildren, dbSkip, assocEntry, ChildEntry.key?]
  exact ⟨hwk, (c2_absent_source_skipped dbSkip (ParentId.trait ⟨0⟩) hwk).2⟩

/-- **C3** (trait and impl classification): for both parent kinds, an
associated function is inserted into `FUNCTION`, a const into `CONST`, a
type alias into `TYPE_ALIAS`, each keyed by its own source; the impl step
coincides with the trait step on every item, and equal associated-item
lists produce equal maps. -/
theorem c3_trait_impl_classification (db : DefDatabase) :
    (∀ (res : DynMap) (f : FunctionId) (src : SourceLocation),
      db.source_of (ItemId.function f) = some src →
        trait_assoc_step db res (AssocItemId.functionId f) = res.insert Slot.FUNCTION src f)
    ∧ (∀ (res : DynMap) (c : ConstId) (src : SourceLocation),
      db.source_of (ItemId.const c) = some src →
        trait_assoc_step db res (AssocItemId.constId c) = res.insert Slot.CONST src c)
    ∧ (∀ (res : DynMap) (ty : TypeAliasId) (src : SourceLocation),
      db.source_of (ItemId.typeAlias ty) = some src →
        trait_assoc_step db res (AssocItemId.typeAliasId ty)
          = res.insert Slot.TYPE_ALIAS src ty)
    ∧ (∀ (res : DynMap) (item : AssocItemId),
        impl_assoc_step db res item = trait_assoc_step db res item)
    ∧ (∀ (t : TraitId) (i : ImplId), db.trait_data t = db.impl_data i →
        TraitId.child_by_source db t = ImplId.child_by_source db i) := by
  refine ⟨?_, ?_, ?_, ?_, ?_⟩
  · intro res f src h; simp [trait_assoc_step, h]
  · intro res c src h; simp [trait_assoc_step, h]
  · intro res ty src h; simp [trait_assoc_step, h]
  · intro res item; cases item <;> rfl
  · intro t i h
    rw [TraitId.child_by_source, ImplId.child_by_source, h]
    congr 1

/-- Witness for C3 at `dbSame`, where trait `0` and impl `0` report the
same single associated function resolving to location `(0,1)`. -/
theorem c3_trait_impl_classification_witness :
    dbSame.source_of (ItemId.function ⟨1⟩) = some ⟨0, 1⟩
    ∧ trait_assoc_step dbSame DynMap.default (AssocItemId.functionId ⟨1⟩)
        = DynMap.default.insert Slot.FUNCTION ⟨0, 1⟩ ⟨1⟩
    ∧ dbSame.trait_data ⟨0⟩ = dbSame.impl_data ⟨0⟩
    ∧ TraitId.child_by_source dbSame ⟨0⟩ = ImplId.child_by_source dbSame ⟨0⟩ :=
  ⟨rfl, (c3_trait_impl_classification dbSame).1 DynMap.default ⟨1⟩ ⟨0, 1⟩ rfl, rfl,
    (c3_trait_impl_classification dbSame).2.2.2.2 ⟨0⟩ ⟨0⟩ rfl⟩

/-- **C4** (module classification with silent ignore): each declared item of
the eight handled kinds is inserted into its respective slot keyed by its
source; each impl in scope is inserted into `IMPL`; the module dispatcher
is exactly "declarations through `add_module_def`, then impls"; and a
declared item of any other kind (submodule, enum variant, builtin type)
leaves the map unchanged — no entry, no error. -/
theorem c4_module_classification (db : DefDatabase) :
    (∀ (m : DynMap) (f : FunctionId) (src : SourceLocation),
      db.source_of (ItemId.function f) = some src →
        add_module_def db m (ModuleDefId.functionId f) = m.insert Slot.FUNCTION src f)
    ∧ (∀ (m : DynMap) (c : ConstId) (src : SourceLocation),
      db.source_of (ItemId.const c) = some src →
        add_module_def db m (ModuleDefId.constId c) = m.insert Slot.CONST src c)
    ∧ (∀ (m : DynMap) (st : StaticId) (src : SourceLocation),
      db.source_of (ItemId.static st) = some src →
        add_module_def db m (ModuleDefId.staticId st) = m.insert Slot.STATIC src st)
    ∧ (∀ (m : DynMap) (ty : TypeAliasId) (src : SourceLocation),
      db.source_of (ItemId.typeAlias ty) = some src →
        add_module_def db m (ModuleDefId.typeAliasId ty) = m.insert Slot.TYPE_ALIAS src ty)
    ∧ (∀ (m : DynMap) (tr : TraitId) (src : SourceLocation),
      db.source_of (ItemId.trait tr) = some src →
        add_module_def db m (ModuleDefId.traitId tr) = m.insert Slot.TRAIT src tr)
    ∧ (∀ (m : DynMap) (st : StructId) (src : SourceLocation),
      db.source_of (ItemId.struct st) = some src →
        add_module_def db m (ModuleDefId.adtId (AdtId.structId st))
          = m.insert Slot.STRUCT src st)
    ∧ (∀ (m : DynMap) (un : UnionId) (src : SourceLocation),
      db.source_of (ItemId.union un) = some src →
        add_module_def db m (ModuleDefId.adtId (AdtId.unionId un))
          = m.insert Slot.UNION src un)
    ∧ (∀ (m : DynMap) (en : EnumId) (src : SourceLocation),
      db.source_of (ItemId.enum en) = some src →
        add_module_def db m (ModuleDefId.adtId (AdtId.enumId en))
          = m.insert Slot.ENUM src en)
    ∧ (∀ (res : DynMap) (i : ImplId) (src : SourceLocation),
      db.source_of (ItemId.impl i) = some src →
        module_impl_step db res i = res.insert Slot.IMPL src i)
    ∧ (∀ mo : ModuleId, ModuleId.child_by_source db mo
        = (db.module_impls mo).foldl (module_impl_step db)
            ((db.module_decls mo).foldl (add_module_def db) DynMap.default))
    ∧ (∀ (m : DynMap) (x : ModuleId), add_module_def db m (ModuleDefId.moduleId x) = m)
    ∧ (∀ (m : DynMap) (x : EnumVariantId),
        add_module_def db m (ModuleDefId.enumVariantId x) = m)
    ∧ (∀ (m : DynMap) (x : BuiltinType),
        add_module_def db m (ModuleDefId.builtinType x) = m) := by
  refine ⟨?_, ?_, ?_, ?_, ?_, ?_, ?_, ?_, ?_, ?_, ?_, ?_, ?_⟩
  · intro m f src h; simp [add_module_def, h]
  · intro m c src h; simp [add_module_def, h]
  · intro m st src h; simp [add_module_def, h]
  · intro m ty src h; simp [add_module_def, h]
  · intro m tr src h; simp [add_module_def, h]
  · intro m st src h; simp [add_module_def, h]
  · intro m un src h; simp [add_module_def, h]
  · intro m en src h; simp [add_module_def, h]
  · intro res i src h; simp [module_impl_step, h]
  · intro mo; rfl
  · intro m x; rfl
  · intro m x; rfl
  · intro m x; rfl

/-- Witness for C4 at `dbSame`: the declared function is inserted into the
`FUNCTION` slot, and the declared submodule leaves the map unchanged. -/
theorem c4_module_classification_witness :
    dbSame.source_of (ItemId.function ⟨4⟩) = some ⟨0, 1⟩
    ∧ add_module_def dbSame DynMap.default (ModuleDefId.functionId ⟨4⟩)
        = DynMap.default.insert Slot.FUNCTION ⟨0, 1⟩ ⟨4⟩
    ∧ add_module_def dbSame DynMap.default (ModuleDefId.moduleId ⟨0, 1⟩) = DynMap.default :=
  ⟨rfl, (c4_module_classification dbSame).1 DynMap.default ⟨4⟩ ⟨0, 1⟩ rfl,
    (c4_module_classification dbSame).2.2.2.2.2.2.2.2.2.2.1 DynMap.default ⟨0, 1⟩⟩

/-- **C5** (enum dispatch): every slot other than `ENUM_VARIANT` of an
enum's map is empty, and — when the variants' arena sources are pairwise
distinct — the `ENUM_VARIANT` slot holds exactly one entry per variant,
keyed by that variant's source (in particular, as many entries as
variants). -/
theorem c5_enum_dispatch (db : DefDatabase) (e : EnumId) :
    (∀ t : Slot, t ≠ Slot.ENUM_VARIANT → (EnumId.child_by_source db e).slots t = [])
    ∧ (List.Pairwise (fun p q => p.2 ≠ q.2) (db.enum_child_source e) →
        (EnumId.child_by_source db e).slots Slot.ENUM_VARIANT
          = ((db.enum_child_source e).map (fun pr => ((pr.2, EnumVariantId.mk e pr.1) :
              SourceLocation × Slot.Val Slot.ENUM_VARIANT))).reverse
        ∧ ((EnumId.child_by_source db e).slots Slot.ENUM_VARIANT).length
            = (db.enum_child_source e).length) := by
  constructor
  · intro t ht
    rw [EnumId.child_by_source, enum_slots_other e _ DynMap.default t ht]
    rfl
  · intro hp
    have hchar := enum_slots_enum_variant e (db.enum_child_source e) DynMap.default hp
      (fun p _ hmem => absurd hmem (List.not_mem_nil _))
    rw [EnumId.child_by_source, hchar]
    constructor
    · simp [DynMap.default]
    · simp [DynMap.default]

/-- Witness for C5 at `dbEnum3`: three variants with distinct sources give
an empty `FUNCTION` slot and three `ENUM_VARIANT` entries. -/
theorem c5_enum_dispatch_witness :
    (EnumId.child_by_source dbEnum3 ⟨5⟩).slots Slot.FUNCTION = []
    ∧ List.Pairwise (fun p q => p.2 ≠ q.2) (dbEnum3.enum_child_source ⟨5⟩)
    ∧ ((EnumId.child_by_source dbEnum3 ⟨5⟩).slots Slot.ENUM_VARIANT).length = 3 := by
  have hp : List.Pairwise (fun p q => p.2 ≠ q.2) (dbEnum3.enum_child_source ⟨5⟩) := by
    decide
  refine ⟨(c5_enum_dispatch dbEnum3 ⟨5⟩).1 Slot.FUNCTION (by decide), hp, ?_⟩
  exact (((c5_enum_dispatch dbEnum3 ⟨5⟩).2 hp).2).trans (by rfl)

/-- **C6** (variant field dispatch): every slot of a variant's map other
than `TUPLE_FIELD`/`RECORD_FIELD` is empty; the per-field step inserts a
tuple-tagged field into `TUPLE_FIELD` only and a record-tagged field into
`RECORD_FIELD` only, keyed by the field's source; and — when the arena's
tagged sources are pairwise distinct — each field is found in its one
slot under its own source location. -/
theorem c6_variant_field_dispatch (db : DefDatabase) (v : VariantId) :
    (∀ t : Slot, t ≠ Slot.TUPLE_FIELD → t ≠ Slot.RECORD_FIELD →
      (VariantId.child_by_source db v).slots t = [])
    ∧ (∀ (m : DynMap) (lid : Nat) (src : SourceLocation),
        variant_field_step v m (lid, Either.left src)
          = m.insert Slot.TUPLE_FIELD src (StructFieldId.mk v lid)
        ∧ variant_field_step v m (lid, Either.right src)
          = m.insert Slot.RECORD_FIELD src (StructFieldId.mk v lid))
    ∧ (List.Pairwise (fun p q => p.2 ≠ q.2) (db.variant_child_source v) →
        ∀ (lid : Nat) (src : SourceLocation),
          ((lid, Either.left src) ∈ db.variant_child_source v →
            (VariantId.child_by_source db v).get Slot.TUPLE_FIELD src
              = some (StructFieldId.mk v lid))
          ∧ ((lid, Either.right src) ∈ db.variant_child_source v →
            (VariantId.child_by_source db v).get Slot.RECORD_FIELD src
              = some (StructFieldId.mk v lid))) := by
  refine ⟨?_, ?_, ?_⟩
  · intro t h1 h2
    rw [VariantId.child_by_source, variant_slots_other v _ DynMap.default t h1 h2]
    rfl
  · intro m lid src; exact ⟨rfl, rfl⟩
  · intro hp lid src
    constructor
    · intro hmem
      rw [variant_corr db v]
      exact get_buildMap_of_mem _ _ (variant_wellKeyed db v hp)
        (fieldEntry v (lid, Either.left src)) (List.mem_map_of_mem _ hmem) src rfl
    · intro hmem
      rw [variant_corr db v]
      exact get_buildMap_of_mem _ _ (variant_wellKeyed db v hp)
        (fieldEntry v (lid, Either.right src)) (List.mem_map_of_mem _ hmem) src rfl

/-- Witness for C6 at `dbEnum3`: the tuple-tagged field of struct `7` is
found in `TUPLE_FIELD`, the record-tagged one in `RECORD_FIELD`. -/
theorem c6_variant_field_dispatch_witness :
    List.Pairwise (fun p q => p.2 ≠ q.2)
      (dbEnum3.variant_child_source (VariantId.structId ⟨7⟩))
    ∧ (VariantId.child_by_source dbEnum3 (VariantId.structId ⟨7⟩)).get Slot.TUPLE_FIELD ⟨3, 0⟩
        = some ⟨VariantId.structId ⟨7⟩, 0⟩
    ∧ (VariantId.child_by_source dbEnum3 (VariantId.structId ⟨7⟩)).get Slot.RECORD_FIELD ⟨3, 1⟩
        = some ⟨VariantId.structId ⟨7⟩, 1⟩ := by
  have hp : List.Pairwise (fun p q => p.2 ≠ q.2)
      (dbEnum3.variant_child_source (VariantId.structId ⟨7⟩)) := by decide
  exact ⟨hp,
    ((c6_variant_field_dispatch dbEnum3 (VariantId.structId ⟨7⟩)).2.2 hp 0 ⟨3, 0⟩).1
      (by decide),
    ((c6_variant_field_dispatch dbEnum3 (VariantId.structId ⟨7⟩)).2.2 hp 1 ⟨3, 1⟩).2
      (by decide)⟩

/-- **C10** (implicit parent linking): every value stored by an `EnumId` or
`VariantId` dispatch carries the parent it was built for and the arena
index (with the tag) it was enumerated at — no id of a different parent
can appear. -/
theorem c10_parent_linking (db : DefDatabase) :
    (∀ (e : EnumId) (p : SourceLocation × EnumVariantId),
      p ∈ (EnumId.child_by_source db e).slots Slot.ENUM_VARIANT →
        p.2.parent = e ∧ (p.2.local_id, p.1) ∈ db.enum_child_source e)
    ∧ (∀ (v : VariantId) (q : SourceLocation × StructFieldId),
      q ∈ (VariantId.child_by_source db v).slots Slot.TUPLE_FIELD →
        q.2.parent = v ∧ (q.2.local_id, Either.left q.1) ∈ db.variant_child_source v)
    ∧ (∀ (v : VariantId) (q : SourceLocation × StructFieldId),
      q ∈ (VariantId.child_by_source db v).slots Slot.RECORD_FIELD →
        q.2.parent = v ∧ (q.2.local_id, Either.right q.1) ∈ db.variant_child_source v) := by
  refine ⟨?_, ?_, ?_⟩
  · intro e p hp
    rw [EnumId.child_by_source] at hp
    rcases enum_mem_elim e _ DynMap.default p hp with h | ⟨pr, hpr, rfl⟩
    · exact absurd h (List.not_mem_nil p)
    · exact ⟨rfl, hpr⟩
  · intro v q hq
    rw [VariantId.child_by_source] at hq
    rcases variant_mem_elim_tuple v _ DynMap.default q hq with h | ⟨lid, s, hmem, rfl⟩
    · exact absurd h (List.not_mem_nil q)
    · exact ⟨rfl, hmem⟩
  · intro v q hq
    rw [VariantId.child_by_source] at hq
    rcases variant_mem_elim_record v _ DynMap.default q hq with h | ⟨lid, s, hmem, rfl⟩
    · exact absurd h (List.not_mem_nil q)
    · exact ⟨rfl, hmem⟩

/-- Witness for C10 at `dbEnum3`: the entry stored for enum `5`'s first
variant carries parent `5` and arena index `0`. -/
theorem c10_parent_linking_witness :
    ((⟨2, 0⟩, ⟨⟨5⟩, 0⟩) : SourceLocation × EnumVariantId)
      ∈ (EnumId.child_by_source dbEnum3 ⟨5⟩).slots Slot.ENUM_VARIANT
    ∧ (⟨⟨5⟩, 0⟩ : EnumVariantId).parent = ⟨5⟩
    ∧ (((⟨⟨5⟩, 0⟩ : EnumVariantId).local_id, (⟨2, 0⟩ : SourceLocation))
        ∈ dbEnum3.enum_child_source ⟨5⟩) := by
  have hmem : ((⟨2, 0⟩, ⟨⟨5⟩, 0⟩) : SourceLocation × EnumVariantId)
      ∈ (EnumId.child_by_source dbEnum3 ⟨5⟩).slots Slot.ENUM_VARIANT := by decide
  have h := (c10_parent_linking dbEnum3).1 ⟨5⟩ (⟨2, 0⟩, ⟨⟨5⟩, 0⟩) hmem
  exact ⟨hmem, h.1, h.2⟩
